import Mathlib

/-!
Verification development for the gadget command layer (`createCommands` in the
gadgets package: `deactivate`, `openUri`, `createPaneItem`, `replacePlaceholders`)
and the clang outline tokenizer (`tokenizeType` in
`pkg/nuclide-clang-atom/lib/OutlineViewHelpers.js`).

The JS source is embedded shallowly:
* opaque JS object values are modelled by `Obj := Nat`, nullable values by `Option Obj`;
* the Rx observer the command layer writes to is modelled by a log of `onNext`
  calls plus a `completed` flag (`onCompleted`);
* the per-item pub-sub subject (`state$`) is a `Channel` recording subscribers,
  published events and synchronous deliveries;
* JS reference identity of pane items is modelled by a `uid : Nat` on each item,
  allocated by a counter threaded through the command state;
* the host pane API (`getItems` / `addItem` / `destroyItem` / `getActiveItem` /
  `setActiveItem`) is modelled by `Pane` together with `applyMutation`; every
  pane mutation the command layer performs is recorded in a `PaneMutation` log so
  that intermediate pane states are observable (`paneTrace`).
-/

namespace Nuclide

/-- Opaque JS object values. -/
abbrev Obj := Nat

/-- A gadget descriptor as used by the command layer: the only capability the
embedded code reads is the optional `deserializeState` hook
(`typeof gadget.deserializeState === 'function'`). -/
structure Gadget where
  deserializeState : Option (Option Obj → Option Obj)

/-- The registry state reached through `getState().get('gadgets')`: a map from
gadget identifier to gadget descriptor, modelled as an association list. -/
abbrev Registry := List (String × Gadget)

/-- Lookup in the registry: `getState().get('gadgets').get(gadgetId)`. -/
def getGadget : Registry → String → Option Gadget
  | [], _ => none
  | (k, g) :: rest, gadgetId => if k = gadgetId then some g else getGadget rest gadgetId

/-- The per-pane-item pub-sub system built in `createPaneItem`
(`const state$ = new Rx.Subject()`): subscribers are callback identifiers in
registration order, `events` is the list of published states (`onNext` calls),
and `deliveries` records every synchronous callback invocation. -/
structure Channel where
  subscribers : List Nat
  events : List (Option Obj)
  deliveries : List Nat
deriving DecidableEq

/-- A fresh subject, as constructed by `createPaneItem`. -/
def Channel.emptyChannel : Channel := ⟨[], [], []⟩

/-- The `subscribe` capability handed to the component:
`const subscribe = cb => state$.forEach(() => cb())` registers a callback
invoked on every publish. -/
def Channel.subscribe (c : Channel) (cb : Nat) : Channel :=
  { c with subscribers := c.subscribers ++ [cb] }

/-- The `notify` capability: `const notify = () => state$.onNext(component.state)`
publishes the component's current state; the subject delivers it synchronously
to every current subscriber, with no de-duplication (the source deliberately
does not use `distinctUntilChanged`). -/
def Channel.notify (c : Channel) (s : Option Obj) : Channel :=
  { c with events := c.events ++ [s], deliveries := c.deliveries ++ c.subscribers }

/-- Events emitted on the observer (`ActionTypes`). -/
inductive ActionEvent where
  | deactivateAct : ActionEvent
  | registerGadgetAct : Gadget → ActionEvent
  | unregisterGadgetAct : String → ActionEvent

/-- The command layer's ambient state: the log of `observer.onNext` calls, the
`observer.onCompleted` flag, the allocator for pane-item identities, and the
notification channels constructed so far. -/
structure CmdState where
  emitted : List ActionEvent
  completed : Bool
  nextUid : Nat
  channels : List Channel

/-- A pane item: either a `GadgetPlaceholder` (carrying `getGadgetId()` and
`getRawInitialGadgetState()`) or a real component item created by
`createPaneItem` (carrying the gadget id and the `initialState` prop it was
instantiated with). -/
inductive ItemKind where
  | placeholder : String → Option Obj → ItemKind
  | real : String → Option Obj → ItemKind
deriving DecidableEq

/-- A pane item value; `uid` models JS reference identity (distinct live items
are distinct objects). -/
structure Item where
  uid : Nat
  kind : ItemKind
deriving DecidableEq

/-- `deactivate()`: `observer.onNext(DEACTIVATE)` then `observer.onCompleted()`.
No other field of the command state is touched and no guard is installed. -/
def deactivate (st : CmdState) : CmdState :=
  { st with emitted := st.emitted ++ [ActionEvent.deactivateAct], completed := true }

/-- `createPaneItem(gadgetId, initialState?)`: looks the gadget up in current
registry state; if absent returns no item and performs no mutation; otherwise
constructs a fresh pub-sub channel and the component item. -/
def createPaneItem (reg : Registry) (gadgetId : String) (initialState : Option Obj)
    (st : CmdState) : Option Item × CmdState :=
  match getGadget reg gadgetId with
  | none => (none, st)
  | some _gadget =>
      (some ⟨st.nextUid, ItemKind.real gadgetId initialState⟩,
       { st with
          nextUid := st.nextUid + 1,
          channels := st.channels ++ [Channel.emptyChannel] })

/-- The result of `GadgetUri.parse`. -/
structure ParsedUri where
  gadgetId : String

/-- `openUri(uri)`: parses the URI; if unparseable returns no item, otherwise
delegates to `createPaneItem` with the parsed gadget id (and no initial state).
The parser itself lives in the separate `GadgetUri` module, so it is a
parameter of the embedding. -/
def openUri (parseUri : String → Option ParsedUri) (reg : Registry) (uri : String)
    (st : CmdState) : Option Item × CmdState :=
  match parseUri uri with
  | none => (none, st)
  | some parsed => createPaneItem reg parsed.gadgetId none st

/-- A host pane: its ordered item sequence and the identity of its active item
(`getActiveItem`). -/
structure Pane where
  items : List Item
  active : Option Nat
deriving DecidableEq

/-- The pane mutations the command layer performs, in the host pane API's
vocabulary. -/
inductive PaneMutation where
  | addItem : Item → Nat → PaneMutation
  | destroyItem : Item → PaneMutation
  | setActiveItem : Item → PaneMutation
deriving DecidableEq

/-- `pane.addItem(item, index)` inserts at `index`; like the host's
`splice(index, 0, item)`, an index past the end appends. -/
def insertAt : Nat → Item → List Item → List Item
  | _, item, [] => [item]
  | 0, item, x :: xs => item :: x :: xs
  | n + 1, item, x :: xs => x :: insertAt n item xs

/-- `pane.destroyItem(item)` removes the given item (identified by its uid)
from the pane's item sequence. -/
def removeItem (uid : Nat) : List Item → List Item
  | [] => []
  | x :: xs => if x.uid = uid then xs else x :: removeItem uid xs

/-- Effect of a single host pane mutation. Destroying the active item leaves
the pane with no recorded active item (the host picks a replacement; none of
the embedded code observes that choice, since `replacePlaceholders` explicitly
calls `setActiveItem` whenever the destroyed placeholder was active). -/
def applyMutation (pane : Pane) : PaneMutation → Pane
  | PaneMutation.addItem item index => { pane with items := insertAt index item pane.items }
  | PaneMutation.destroyItem item =>
      { items := removeItem item.uid pane.items,
        active := if pane.active = some item.uid then none else pane.active }
  | PaneMutation.setActiveItem item => { pane with active := some item.uid }

/-- Lines 146-150 of the command layer: deserialize the placeholder's raw
initial state through the gadget's `deserializeState` hook if it has one,
otherwise use the raw blob verbatim (even when it is null). -/
def placeholderInitialState (gadget : Gadget) (raw : Option Obj) : Option Obj :=
  match gadget.deserializeState with
  | some f => f raw
  | none => raw

/-- One iteration of the `replacePlaceholders` loop body at `index` over the
snapshot `items = pane.getItems()`: skip non-placeholders and placeholders
whose gadget is still absent; otherwise create the real item via
`createPaneItem` and record the pane mutations the code performs, in source
order (addItem at `index + 1`, then destroyItem of the placeholder, then
setActiveItem if the placeholder was the active item). Returns the updated
command state and the mutation list. -/
def stepMutations (reg : Registry) (snapshot : List Item) (index : Nat) (pane : Pane)
    (st : CmdState) : CmdState × List PaneMutation :=
  match snapshot[index]? with
  | none => (st, [])
  | some item =>
    match item.kind with
    | ItemKind.real _ _ => (st, [])
    | ItemKind.placeholder gadgetId rawInitialGadgetState =>
      match getGadget reg gadgetId with
      | none => (st, [])
      | some gadget =>
        match createPaneItem reg gadgetId
            (placeholderInitialState gadget rawInitialGadgetState) st with
        | (none, st') => (st', [])
        | (some realItem, st') =>
            (st',
             [PaneMutation.addItem realItem (index + 1), PaneMutation.destroyItem item]
               ++ (if pane.active = some item.uid
                   then [PaneMutation.setActiveItem realItem] else []))

/-- One loop iteration together with its effect on the pane: the recorded
mutations are applied to the live pane in order. -/
def processIndex (reg : Registry) (snapshot : List Item) (index : Nat) (pane : Pane)
    (st : CmdState) : Pane × CmdState × List PaneMutation :=
  ((stepMutations reg snapshot index pane st).2.foldl applyMutation pane,
   (stepMutations reg snapshot index pane st).1,
   (stepMutations reg snapshot index pane st).2)

/-- The `for (let index = items.length - 1; index >= 0; index--)` loop: `fuel`
iterations remain, the next index processed is `fuel - 1`. Returns the final
pane, the final command state and the concatenated mutation log. -/
def replaceLoopAux (reg : Registry) (snapshot : List Item) :
    Nat → Pane → CmdState → Pane × CmdState × List PaneMutation
  | 0, pane, st => (pane, st, [])
  | fuel + 1, pane, st =>
    (((replaceLoopAux reg snapshot fuel (processIndex reg snapshot fuel pane st).1
        (processIndex reg snapshot fuel pane st).2.1).1),
     ((replaceLoopAux reg snapshot fuel (processIndex reg snapshot fuel pane st).1
        (processIndex reg snapshot fuel pane st).2.1).2.1),
     (processIndex reg snapshot fuel pane st).2.2
       ++ (replaceLoopAux reg snapshot fuel (processIndex reg snapshot fuel pane st).1
            (processIndex reg snapshot fuel pane st).2.1).2.2)

/-- The per-pane body of `replacePlaceholders()`: snapshot the items
(`const items = pane.getItems()`) and iterate in reverse index order. -/
def replacePane (reg : Registry) (pane : Pane) (st : CmdState) :
    Pane × CmdState × List PaneMutation :=
  replaceLoopAux reg pane.items pane.items.length pane st

/-- `replacePlaceholders()`: run the per-pane body over every open pane
(`atom.workspace.getPanes().forEach(...)`), threading the command state and
collecting one mutation log per pane. -/
def replacePlaceholders (reg : Registry) :
    List Pane → CmdState → List Pane × CmdState × List (List PaneMutation)
  | [], st => ([], st, [])
  | pane :: rest, st =>
    ((replacePane reg pane st).1
        :: (replacePlaceholders reg rest (replacePane reg pane st).2.1).1,
     (replacePlaceholders reg rest (replacePane reg pane st).2.1).2.1,
     (replacePane reg pane st).2.2
        :: (replacePlaceholders reg rest (replacePane reg pane st).2.1).2.2)

/-- All intermediate pane states while a mutation log is applied in order,
starting from the initial pane. -/
def paneTrace (pane : Pane) (log : List PaneMutation) : List Pane :=
  List.scanl applyMutation pane log

/-- An item the `replacePlaceholders` loop body will skip: either a real item,
or a placeholder whose gadget is absent from the registry. -/
def resolvedItem (reg : Registry) (item : Item) : Bool :=
  match item.kind with
  | ItemKind.real _ _ => true
  | ItemKind.placeholder gadgetId _ => (getGadget reg gadgetId).isNone

/-- Tokens produced by the outline tokenizer; only the two constructors
`tokenizeType` uses (`plain(...)` and `string('...')`) are needed. -/
inductive Token where
  | plain : List Char → Token
  | str : List Char → Token
deriving DecidableEq

/-- The collapse threshold `LONG_TYPE_LENGTH` from OutlineViewHelpers.js. -/
def LONG_TYPE_LENGTH : Nat := 50

/-- JS `type.indexOf(c)`: index of the first occurrence, as an `Option`. -/
def jsIndexOf : List Char → Char → Option Nat
  | [], _ => none
  | x :: xs, c => if x = c then some 0 else (jsIndexOf xs c).map (· + 1)

/-- JS `type.lastIndexOf(c)`: index of the last occurrence, as an `Option`. -/
def jsLastIndexOf : List Char → Char → Option Nat
  | [], _ => none
  | x :: xs, c =>
    match jsLastIndexOf xs c with
    | some j => some (j + 1)
    | none => if x = c then some 0 else none

/-- `tokenizeType` from OutlineViewHelpers.js, on the type's character
sequence: when the length exceeds `LONG_TYPE_LENGTH` and the type has both a
`<` and a (last) `>`, collapse the interior to an ellipsis, keeping
`type.substring(0, openIndex + 1)` and `type.substring(closeIndex)`;
otherwise a single plain token. -/
def tokenizeType (type : List Char) : List Token :=
  if LONG_TYPE_LENGTH < type.length then
    match jsIndexOf type '<' with
    | some openIndex =>
      match jsLastIndexOf type '>' with
      | some closeIndex =>
          [Token.plain (type.take (openIndex + 1)),
           Token.str ['.', '.', '.'],
           Token.plain (type.drop closeIndex)]
      | none => [Token.plain type]
    | none => [Token.plain type]
  else [Token.plain type]

/-- Sample gadget with no `deserializeState` hook. -/
def g0 : Gadget := ⟨none⟩

/-- Sample gadget whose `deserializeState` hook ignores the blob and returns 7. -/
def g1 : Gadget := ⟨some (fun _ => some 7)⟩

/-- Sample registry holding `g0` under id "x". -/
def reg0 : Registry := [("x", g0)]

/-- Sample registry holding `g1` under id "hooked". -/
def reg1 : Registry := [("hooked", g1)]

/-- Sample command state with uid allocator at 5. -/
def st0 : CmdState := ⟨[], false, 5, []⟩

/-- Sample placeholder item for gadget "x" with raw blob 3. -/
def itemA0 : Item := ⟨0, ItemKind.placeholder "x" (some 3)⟩

/-- Sample real item. -/
def itemB0 : Item := ⟨1, ItemKind.real "y" none⟩

/-- Sample placeholder item for gadget "hooked". -/
def itemH0 : Item := ⟨0, ItemKind.placeholder "hooked" (some 3)⟩

/-- Sample pane holding a placeholder then a real item, placeholder active. -/
def pane0 : Pane := ⟨[itemA0, itemB0], some 0⟩

/-- Sample pane holding just the placeholder, which is active. -/
def pane1 : Pane := ⟨[itemA0], some 0⟩

/-- Sample pane for the hook example. -/
def pane2 : Pane := ⟨[itemH0], none⟩

/-- The mutation log produced by replacing placeholders in `pane1`. -/
def log0 : List PaneMutation := (replacePane reg0 pane1 st0).2.2

/-- The intermediate pane state of the `pane1` replacement right after
`addItem` and before `destroyItem`. -/
def q0 : Pane := ⟨[itemA0, ⟨5, ItemKind.real "x" (some 3)⟩], some 0⟩

/-- A parser that recognizes every string as gadget "x". -/
def parse0 : String → Option ParsedUri := fun _ => some ⟨"x"⟩

/-- A 60-character type with a template argument list. -/
def t9 : List Char := List.replicate 30 'a' ++ '<' :: List.replicate 28 'b' ++ ['>']

/-- A 51-character type with no angle brackets. -/
def t10 : List Char := List.replicate 51 'a'

/-- C4: `createPaneItem` for a gadget id absent from the registry returns no
item and performs no mutation at all: no event is emitted on the observer, no
channel or component is constructed, and the uid allocator is untouched (the
command state is returned unchanged). -/
theorem createPaneItem_absent_noop (reg : Registry) (gadgetId : String)
    (initialState : Option Obj) (st : CmdState) (h : getGadget reg gadgetId = none) :
    createPaneItem reg gadgetId initialState st = (none, st) := by
  simp [createPaneItem, h]

theorem createPaneItem_absent_noop_witness :
    getGadget [] "absent" = none ∧
    createPaneItem [] "absent" none st0 = (none, st0) :=
  ⟨rfl, createPaneItem_absent_noop [] "absent" none st0 rfl⟩

/-- C5 counterexample: the command layer installs no post-deactivation guard.
After `deactivate()` (which emits DEACTIVATE and completes the stream),
`createPaneItem` still succeeds with its normal effect: it returns a live pane
item for a registered gadget and advances the uid allocator, rather than
no-opping or signalling a lifecycle error. -/
theorem post_deactivate_guard_cex :
    (deactivate st0).completed = true ∧
    (createPaneItem reg0 "x" none (deactivate st0)).1
      = some ⟨st0.nextUid, ItemKind.real "x" none⟩ ∧
    (createPaneItem reg0 "x" none (deactivate st0)).2.nextUid = st0.nextUid + 1 :=
  ⟨rfl, rfl, rfl⟩

/-- C5 amended: `deactivate()` emits a DEACTIVATE event and completes the
event stream, but subsequent commands are not guarded: `createPaneItem`
returns exactly the item it would have returned before deactivation (so a
post-deactivation call with a registered gadget succeeds with its normal
effect; there is no consistent no-op or lifecycle-error policy). -/
theorem post_deactivate_unguarded (reg : Registry) (gadgetId : String)
    (initialState : Option Obj) (st : CmdState) :
    (createPaneItem reg gadgetId initialState (deactivate st)).1
      = (createPaneItem reg gadgetId initialState st).1 ∧
    (deactivate st).completed = true := by
  constructor
  · unfold createPaneItem deactivate
    cases getGadget reg gadgetId <;> rfl
  · rfl

/-- C7: notifications are never de-duplicated. Starting from any channel, a
subscriber registered through the `subscribe` capability is among the current
subscribers, and two `notify()` calls with value-identical state publish two
events and deliver exactly one callback invocation per current subscriber per
call. -/
theorem notify_no_dedup (c : Channel) (cb : Nat) (s : Option Obj) :
    (((c.subscribe cb).notify s).notify s).events = (c.subscribe cb).events ++ [s, s] ∧
    (((c.subscribe cb).notify s).notify s).deliveries
      = (c.subscribe cb).deliveries ++ (c.subscribe cb).subscribers
          ++ (c.subscribe cb).subscribers ∧
    List.count cb (c.subscribe cb).subscribers = List.count cb c.subscribers + 1 := by
  refine ⟨by simp [Channel.subscribe, Channel.notify], by simp [Channel.subscribe, Channel.notify], ?_⟩
  simp [Channel.subscribe]

/-- C8: `openUri` returns no item exactly when the URI does not parse, and
otherwise its result is exactly that of `createPaneItem` on the parsed gadget
id: no other creation path exists. -/
theorem openUri_delegates (parseUri : String → Option ParsedUri) (reg : Registry)
    (uri : String) (st : CmdState) :
    (parseUri uri = none → openUri parseUri reg uri st = (none, st)) ∧
    (∀ parsed, parseUri uri = some parsed →
      openUri parseUri reg uri st = createPaneItem reg parsed.gadgetId none st) := by
  constructor
  · intro h; simp [openUri, h]
  · intro parsed h; simp [openUri, h]

/-- C6: when the `replacePlaceholders` loop body replaces a placeholder, the
first pane mutation it performs adds the real item created by `createPaneItem`
with initial state `placeholderInitialState gadget raw` at the index right
after the placeholder's, and that initial state is the `deserializeState` hook
applied to the raw blob when the hook exists, and the raw blob itself
(unmodified, including null) when it does not. -/
theorem replace_uses_deserialize_hook (reg : Registry) (snapshot : List Item)
    (index : Nat) (pane : Pane) (st : CmdState) (item : Item) (gadgetId : String)
    (raw : Option Obj) (gadget : Gadget)
    (hi : snapshot[index]? = some item)
    (hk : item.kind = ItemKind.placeholder gadgetId raw)
    (hg : getGadget reg gadgetId = some gadget) :
    ((processIndex reg snapshot index pane st).2.2).head?
      = some (PaneMutation.addItem
          ⟨st.nextUid, ItemKind.real gadgetId (placeholderInitialState gadget raw)⟩
          (index + 1)) ∧
    placeholderInitialState gadget raw = (gadget.deserializeState.getD id) raw := by
  constructor
  · simp [processIndex, stepMutations, hi, hk, hg, createPaneItem]
  · unfold placeholderInitialState
    cases gadget.deserializeState <;> rfl

theorem replace_uses_deserialize_hook_witness :
    ([itemH0][0]? = some itemH0) ∧
    (itemH0.kind = ItemKind.placeholder "hooked" (some 3)) ∧
    (getGadget reg1 "hooked" = some g1) ∧
    ((processIndex reg1 [itemH0] 0 pane2 st0).2.2).head?
      = some (PaneMutation.addItem
          ⟨st0.nextUid, ItemKind.real "hooked" (placeholderInitialState g1 (some 3))⟩ 1) ∧
    placeholderInitialState g1 (some 3) = (g1.deserializeState.getD id) (some 3) :=
  ⟨rfl, rfl, rfl,
   (replace_uses_deserialize_hook reg1 [itemH0] 0 pane2 st0 itemH0 "hooked" (some 3) g1
      rfl rfl rfl).1,
   (replace_uses_deserialize_hook reg1 [itemH0] 0 pane2 st0 itemH0 "hooked" (some 3) g1
      rfl rfl rfl).2⟩

/-- C1: on a pane whose snapshot is a placeholder for a now-registered gadget
followed by a real item, `replacePlaceholders`'s per-pane pass produces exactly
the real upgraded item (created with the deserialized initial state and a fresh
identity) in the placeholder's position followed by the untouched real item —
order preserved — and if the placeholder was the active item, the upgraded
item is active afterwards. -/
theorem replacePane_upgrades_placeholder (reg : Registry) (pane : Pane) (st : CmdState)
    (A B : Item) (X : String) (raw : Option Obj) (g : Gadget) (bId : String)
    (bs : Option Obj)
    (hitems : pane.items = [A, B])
    (hA : A.kind = ItemKind.placeholder X raw)
    (hB : B.kind = ItemKind.real bId bs)
    (hg : getGadget reg X = some g) :
    (replacePane reg pane st).1.items
      = [⟨st.nextUid, ItemKind.real X (placeholderInitialState g raw)⟩, B] ∧
    (pane.active = some A.uid → (replacePane reg pane st).1.active = some st.nextUid) := by
  unfold replacePane
  rw [hitems]
  by_cases hact : pane.active = some A.uid <;>
    simp [replaceLoopAux, processIndex, stepMutations, hA, hB, hg, createPaneItem,
          applyMutation, insertAt, removeItem, hact, hitems]

theorem replacePane_upgrades_placeholder_witness :
    pane0.items = [itemA0, itemB0] ∧
    itemA0.kind = ItemKind.placeholder "x" (some 3) ∧
    itemB0.kind = ItemKind.real "y" none ∧
    getGadget reg0 "x" = some g0 ∧
    pane0.active = some itemA0.uid ∧
    (replacePane reg0 pane0 st0).1.items
      = [⟨st0.nextUid, ItemKind.real "x" (placeholderInitialState g0 (some 3))⟩, itemB0] ∧
    (replacePane reg0 pane0 st0).1.active = some st0.nextUid :=
  ⟨rfl, rfl, rfl, rfl, rfl,
   (replacePane_upgrades_placeholder reg0 pane0 st0 itemA0 itemB0 "x" (some 3) g0 "y" none
      rfl rfl rfl rfl).1,
   (replacePane_upgrades_placeholder reg0 pane0 st0 itemA0 itemB0 "x" (some 3) g0 "y" none
      rfl rfl rfl rfl).2 rfl⟩

theorem openUri_delegates_witness :
    parse0 "u" = some ⟨"x"⟩ ∧
    openUri parse0 reg0 "u" st0 = createPaneItem reg0 "x" none st0 :=
  ⟨rfl, (openUri_delegates parse0 reg0 "u" st0).2 ⟨"x"⟩ rfl⟩

/-- Inserting at the length of the left part of an append splits the append. -/
theorem insertAt_append (l1 l2 : List Item) (item : Item) :
    insertAt l1.length item (l1 ++ l2) = l1 ++ item :: l2 := by
  induction l1 with
  | nil => cases l2 <;> rfl
  | cons x xs ih => simpa [insertAt] using ih

/-- `addItem` always grows the pane by exactly one item. -/
theorem length_insertAt (index : Nat) (item : Item) (l : List Item) :
    (insertAt index item l).length = l.length + 1 := by
  induction l generalizing index with
  | nil => cases index <;> rfl
  | cons x xs ih =>
    cases index with
    | zero => rfl
    | succ n => simp [insertAt, ih n]

/-- `destroyItem` removes at most one item. -/
theorem length_removeItem (uid : Nat) (l : List Item) :
    l.length ≤ (removeItem uid l).length + 1 := by
  induction l with
  | nil => simp [removeItem]
  | cons x xs ih =>
    by_cases hx : x.uid = uid
    · simp [removeItem, hx]
    · simp only [removeItem, if_neg hx, List.length_cons]
      exact Nat.succ_le_succ ih

/-- `destroyItem` removes exactly the designated item when no earlier item
shares its identity. -/
theorem removeItem_append (l1 l2 : List Item) (x : Item)
    (h : ∀ y ∈ l1, y.uid ≠ x.uid) :
    removeItem x.uid (l1 ++ x :: l2) = l1 ++ l2 := by
  induction l1 with
  | nil => simp [removeItem]
  | cons a t ih =>
    have ha : ¬a.uid = x.uid := h a (by simp)
    simp only [List.cons_append, removeItem, if_neg ha, List.append_eq]
    rw [ih (fun y hy => h y (by simp [hy]))]

/-- Splitting the intermediate states of a mutation sequence at an append. -/
theorem mem_scanl_append {α β : Type} (f : α → β → α) (b : α) (l1 l2 : List β) (q : α)
    (h : q ∈ List.scanl f b (l1 ++ l2)) :
    q ∈ List.scanl f b l1 ∨ q ∈ List.scanl f (l1.foldl f b) l2 := by
  induction l1 generalizing b with
  | nil => simpa using Or.inr h
  | cons a t ih =>
    rw [List.cons_append, List.scanl_cons] at h
    rcases List.mem_append.mp h with h1 | h1
    · exact Or.inl (by rw [List.scanl_cons]; exact List.mem_append.mpr (Or.inl h1))
    · rcases ih (f b a) h1 with h2 | h2
      · exact Or.inl (by rw [List.scanl_cons]; exact List.mem_append.mpr (Or.inr h2))
      · exact Or.inr (by simpa using h2)

/-- The fold of a mutation sequence is one of its intermediate states. -/
theorem foldl_mem_scanl {α β : Type} (f : α → β → α) (b : α) (l : List β) :
    l.foldl f b ∈ List.scanl f b l := by
  induction l generalizing b with
  | nil => simp
  | cons a t ih => simpa [List.scanl_cons] using Or.inr (ih (f b a))

/-- The loop body's mutation list is either empty or exactly an addItem at the
successor index, a destroyItem, and possibly a setActiveItem. -/
theorem stepMutations_cases (reg : Registry) (snapshot : List Item) (index : Nat)
    (pane : Pane) (st : CmdState) :
    (stepMutations reg snapshot index pane st).2 = [] ∨
    ∃ item realItem,
      (stepMutations reg snapshot index pane st).2
        = [PaneMutation.addItem realItem (index + 1), PaneMutation.destroyItem item]
            ++ (if pane.active = some item.uid
                then [PaneMutation.setActiveItem realItem] else []) := by
  unfold stepMutations
  split
  · exact Or.inl rfl
  · split
    · exact Or.inl rfl
    · split
      · exact Or.inl rfl
      · split
        · exact Or.inl rfl
        · exact Or.inr ⟨_, _, rfl⟩

/-- Every intermediate pane state of one loop-body replacement has at least
the pane's current item count: the real item is added before the placeholder
is destroyed. -/
theorem trace_ge_of_muts (pane : Pane) (item realItem : Item) (index : Nat) (q : Pane)
    (hq : q ∈ List.scanl applyMutation pane
        ([PaneMutation.addItem realItem (index + 1), PaneMutation.destroyItem item]
          ++ (if pane.active = some item.uid
              then [PaneMutation.setActiveItem realItem] else []))) :
    pane.items.length ≤ q.items.length := by
  have hadd : (applyMutation pane (PaneMutation.addItem realItem (index + 1))).items.length
      = pane.items.length + 1 := by
    simp [applyMutation, length_insertAt]
  have hdes : pane.items.length
      ≤ (applyMutation (applyMutation pane (PaneMutation.addItem realItem (index + 1)))
          (PaneMutation.destroyItem item)).items.length := by
    have h1 := length_removeItem item.uid
      (applyMutation pane (PaneMutation.addItem realItem (index + 1))).items
    simp only [applyMutation] at h1 ⊢
    simp only [length_insertAt] at h1
    omega
  by_cases hact : pane.active = some item.uid
  · rw [if_pos hact] at hq
    simp only [List.cons_append, List.nil_append, List.scanl_cons, List.scanl_nil] at hq
    simp only [List.mem_cons, List.mem_singleton, List.not_mem_nil, or_false] at hq
    rcases hq with rfl | hq
    · exact le_refl _
    · rcases hq with rfl | hq
      · simp [hadd]
      · rcases hq with rfl | rfl
        · exact hdes
        · simpa [applyMutation] using hdes
  · rw [if_neg hact] at hq
    simp only [List.cons_append, List.nil_append, List.scanl_cons, List.scanl_nil] at hq
    simp only [List.mem_cons, List.mem_singleton, List.not_mem_nil, or_false] at hq
    rcases hq with rfl | hq
    · exact le_refl _
    · rcases hq with rfl | rfl
      · simp [hadd]
      · exact hdes

/-- Every intermediate pane state of one loop iteration has at least the
pane's current item count. -/
theorem step_trace_ge (reg : Registry) (snapshot : List Item) (index : Nat)
    (pane : Pane) (st : CmdState) :
    ∀ q ∈ List.scanl applyMutation pane (stepMutations reg snapshot index pane st).2,
      pane.items.length ≤ q.items.length := by
  intro q hq
  rcases stepMutations_cases reg snapshot index pane st with h | ⟨item, realItem, h⟩
  · rw [h] at hq
    simp only [List.scanl_nil, List.mem_singleton] at hq
    subst hq
    exact le_refl _
  · rw [h] at hq
    exact trace_ge_of_muts pane item realItem index q hq

/-- One loop iteration never shrinks the pane below its current item count. -/
theorem step_final_ge (reg : Registry) (snapshot : List Item) (index : Nat)
    (pane : Pane) (st : CmdState) :
    pane.items.length ≤ (processIndex reg snapshot index pane st).1.items.length :=
  step_trace_ge reg snapshot index pane st _
    (foldl_mem_scanl applyMutation pane (stepMutations reg snapshot index pane st).2)

/-- Every intermediate pane state across the whole reverse loop has at least
the starting item count. -/
theorem loop_trace_ge (reg : Registry) (snapshot : List Item) :
    ∀ (fuel : Nat) (pane : Pane) (st : CmdState),
      ∀ q ∈ List.scanl applyMutation pane
          (replaceLoopAux reg snapshot fuel pane st).2.2,
        pane.items.length ≤ q.items.length := by
  intro fuel
  induction fuel with
  | zero =>
    intro pane st q hq
    simp only [replaceLoopAux, List.scanl_nil, List.mem_singleton] at hq
    subst hq
    exact le_refl _
  | succ n ih =>
    intro pane st q hq
    simp only [replaceLoopAux] at hq
    rcases mem_scanl_append applyMutation pane _ _ q hq with h | h
    · exact step_trace_ge reg snapshot n pane st q h
    · have h2 := ih (processIndex reg snapshot n pane st).1
        (processIndex reg snapshot n pane st).2.1 q h
      exact le_trans (step_final_ge reg snapshot n pane st) h2

/-- C2: during `replacePlaceholders()`, no pane ever transiently drops below
its initial item count (in particular it never transiently holds zero items):
each replacement step adds the real item before destroying the placeholder,
as witnessed by every intermediate state of the recorded pane-mutation log. -/
theorem replacePlaceholders_no_transient_drop (reg : Registry) (panes : List Pane)
    (st : CmdState) (k : Nat) (pane : Pane) (log : List PaneMutation)
    (hp : panes[k]? = some pane)
    (hl : (replacePlaceholders reg panes st).2.2[k]? = some log)
    (q : Pane) (hq : q ∈ paneTrace pane log) :
    pane.items.length ≤ q.items.length := by
  induction panes generalizing k st with
  | nil => simp at hp
  | cons p rest ih =>
    cases k with
    | zero =>
      simp only [List.getElem?_cons_zero, Option.some.injEq] at hp
      subst hp
      simp only [replacePlaceholders, List.getElem?_cons_zero, Option.some.injEq] at hl
      subst hl
      have hq' : q ∈ List.scanl applyMutation p
          (replaceLoopAux reg p.items p.items.length p st).2.2 := hq
      exact loop_trace_ge reg p.items p.items.length p st q hq'
    | succ m =>
      simp only [List.getElem?_cons_succ] at hp
      simp only [replacePlaceholders, List.getElem?_cons_succ] at hl
      exact ih (replacePane reg p st).2.1 m hp hl

theorem replacePlaceholders_no_transient_drop_witness :
    ([pane1][0]? = some pane1) ∧
    ((replacePlaceholders reg0 [pane1] st0).2.2[0]? = some log0) ∧
    q0 ∈ paneTrace pane1 log0 ∧
    pane1.items.length ≤ q0.items.length :=
  ⟨rfl, rfl, by decide,
   replacePlaceholders_no_transient_drop reg0 [pane1] st0 0 pane1 log0 rfl rfl q0
     (by decide)⟩

/-- The loop body does nothing at an out-of-range index. -/
theorem stepMutations_oob (reg : Registry) (snapshot : List Item) (index : Nat)
    (pane : Pane) (st : CmdState) (hi : snapshot[index]? = none) :
    stepMutations reg snapshot index pane st = (st, []) := by
  simp [stepMutations, hi]

/-- The loop body skips an already-resolved item: mutation-free, state
untouched. -/
theorem stepMutations_resolved (reg : Registry) (snapshot : List Item) (index : Nat)
    (pane : Pane) (st : CmdState) (item : Item) (hi : snapshot[index]? = some item)
    (hres : resolvedItem reg item = true) :
    stepMutations reg snapshot index pane st = (st, []) := by
  cases hk : item.kind with
  | real a b => simp [stepMutations, hi, hk]
  | placeholder gid raw =>
    have hg : getGadget reg gid = none := by
      have := hres
      simp only [resolvedItem, hk, Option.isNone_iff_eq_none] at this
      exact this
    simp [stepMutations, hi, hk, hg]

/-- `processIndex` leaves pane and state untouched on a resolved item. -/
theorem processIndex_resolved (reg : Registry) (snapshot : List Item) (index : Nat)
    (pane : Pane) (st : CmdState) (item : Item) (hi : snapshot[index]? = some item)
    (hres : resolvedItem reg item = true) :
    processIndex reg snapshot index pane st = (pane, st, []) := by
  unfold processIndex
  rw [stepMutations_resolved reg snapshot index pane st item hi hres]
  rfl

/-- `processIndex` leaves pane and state untouched out of range. -/
theorem processIndex_oob (reg : Registry) (snapshot : List Item) (index : Nat)
    (pane : Pane) (st : CmdState) (hi : snapshot[index]? = none) :
    processIndex reg snapshot index pane st = (pane, st, []) := by
  unfold processIndex
  rw [stepMutations_oob reg snapshot index pane st hi]
  rfl

/-- If every snapshot item is resolved, the whole loop does nothing. -/
theorem loop_noop_of_resolved (reg : Registry) (snapshot : List Item)
    (h : ∀ item ∈ snapshot, resolvedItem reg item = true) :
    ∀ (fuel : Nat) (pane : Pane) (st : CmdState),
      replaceLoopAux reg snapshot fuel pane st = (pane, st, []) := by
  intro fuel
  induction fuel with
  | zero => intro pane st; rfl
  | succ n ih =>
    intro pane st
    have hstep : processIndex reg snapshot n pane st = (pane, st, []) := by
      cases hi : snapshot[n]? with
      | none => exact processIndex_oob reg snapshot n pane st hi
      | some item =>
        exact processIndex_resolved reg snapshot n pane st item hi
          (h item (List.getElem?_mem hi))
    rw [replaceLoopAux, hstep]
    simp [ih pane st]

/-- No item before position `n` shares the identity of the item at `n`
(pane items are distinct objects). -/
theorem take_uid_ne (snapshot : List Item) (hnd : (snapshot.map Item.uid).Nodup)
    (n : Nat) (item : Item) (hin : snapshot[n]? = some item) :
    ∀ y ∈ snapshot.take n, y.uid ≠ item.uid := by
  have hpw : snapshot.Pairwise (fun a b => a.uid ≠ b.uid) := by
    simpa [List.Nodup, List.pairwise_map] using hnd
  have h1 : snapshot.take (n + 1) = snapshot.take n ++ [item] := by
    rw [List.take_succ, hin]
    rfl
  have h2 : (snapshot.take n ++ [item]).Pairwise (fun a b => a.uid ≠ b.uid) := by
    rw [← h1]
    exact hpw.sublist (List.take_sublist _ _)
  rcases List.pairwise_append.mp h2 with ⟨_, _, hcross⟩
  intro y hy
  exact hcross y hy item (by simp)

/-- Applying one replacement's mutations to a pane swaps the placeholder for
the real item in place. -/
theorem foldl_replace_items (pane : Pane) (item realItem : Item) (l1 l2 : List Item)
    (hp : pane.items = l1 ++ item :: l2)
    (hpre : ∀ y ∈ l1, y.uid ≠ item.uid) :
    (([PaneMutation.addItem realItem (l1.length + 1), PaneMutation.destroyItem item]
        ++ (if pane.active = some item.uid
            then [PaneMutation.setActiveItem realItem] else [])).foldl
        applyMutation pane).items = l1 ++ realItem :: l2 := by
  have hL : l1.length + 1 = (l1 ++ [item]).length := by simp
  have h1 : insertAt (l1.length + 1) realItem pane.items = l1 ++ item :: realItem :: l2 := by
    rw [hp, hL, show l1 ++ item :: l2 = (l1 ++ [item]) ++ l2 by simp, insertAt_append]
    simp
  have h2 : removeItem item.uid (l1 ++ item :: realItem :: l2) = l1 ++ realItem :: l2 :=
    removeItem_append l1 (realItem :: l2) item hpre
  by_cases hact : pane.active = some item.uid
  · rw [if_pos hact]
    simp only [List.cons_append, List.nil_append, List.foldl_cons, List.foldl_nil,
      applyMutation]
    rw [h1, h2]
  · rw [if_neg hact]
    simp only [List.cons_append, List.nil_append, List.foldl_cons, List.foldl_nil,
      applyMutation]
    rw [h1, h2]

/-- Loop invariant: entering the loop with `fuel` indices left over a pane
whose items are the unprocessed snapshot prefix followed by already-resolved
items, every item of the final pane is resolved. -/
theorem loop_resolves (reg : Registry) (snapshot : List Item)
    (hnd : (snapshot.map Item.uid).Nodup) :
    ∀ (fuel : Nat), fuel ≤ snapshot.length →
      ∀ (pane : Pane) (st : CmdState) (rest : List Item),
        pane.items = snapshot.take fuel ++ rest →
        (∀ x ∈ rest, resolvedItem reg x = true) →
        ∀ x ∈ (replaceLoopAux reg snapshot fuel pane st).1.items,
          resolvedItem reg x = true := by
  intro fuel
  induction fuel with
  | zero =>
    intro _ pane st rest hp hres x hx
    simp only [replaceLoopAux] at hx
    rw [hp] at hx
    simp only [List.take_zero, List.nil_append] at hx
    exact hres x hx
  | succ n ih =>
    intro hfuel pane st rest hp hres x hx
    have hn : n < snapshot.length := hfuel
    obtain ⟨item, hin⟩ : ∃ y, snapshot[n]? = some y := by
      rw [List.getElem?_eq_getElem hn]
      exact ⟨_, rfl⟩
    have htake : snapshot.take (n + 1) = snapshot.take n ++ [item] := by
      rw [List.take_succ, hin]
      rfl
    have hp' : pane.items = snapshot.take n ++ item :: rest := by
      rw [hp, htake]
      simp
    simp only [replaceLoopAux] at hx
    have hresolved_cons : (∀ y ∈ item :: rest, resolvedItem reg y = true) →
        resolvedItem reg item = true := fun h => h item (by simp)
    cases hk : item.kind with
    | real a b =>
      have hri : resolvedItem reg item = true := by simp [resolvedItem, hk]
      rw [processIndex_resolved reg snapshot n pane st item hin hri] at hx
      refine ih (Nat.le_of_lt hn) pane st (item :: rest) hp' ?_ x hx
      intro y hy
      rcases List.mem_cons.mp hy with rfl | hy2
      · exact hri
      · exact hres y hy2
    | placeholder gid raw =>
      cases hg : getGadget reg gid with
      | none =>
        have hri : resolvedItem reg item = true := by simp [resolvedItem, hk, hg]
        rw [processIndex_resolved reg snapshot n pane st item hin hri] at hx
        refine ih (Nat.le_of_lt hn) pane st (item :: rest) hp' ?_ x hx
        intro y hy
        rcases List.mem_cons.mp hy with rfl | hy2
        · exact hri
        · exact hres y hy2
      | some gadget =>
        have hstep : stepMutations reg snapshot n pane st
            = ({ st with
                  nextUid := st.nextUid + 1,
                  channels := st.channels ++ [Channel.emptyChannel] },
               [PaneMutation.addItem
                  ⟨st.nextUid, ItemKind.real gid (placeholderInitialState gadget raw)⟩
                  (n + 1),
                PaneMutation.destroyItem item]
                 ++ (if pane.active = some item.uid
                     then [PaneMutation.setActiveItem
                        ⟨st.nextUid, ItemKind.real gid (placeholderInitialState gadget raw)⟩]
                     else [])) := by
          simp [stepMutations, hin, hk, hg, createPaneItem]
        have hlen1 : n = (snapshot.take n).length := by
          rw [List.length_take]
          exact (Nat.min_eq_left (Nat.le_of_lt hn)).symm
        have hitems : (processIndex reg snapshot n pane st).1.items
            = snapshot.take n
                ++ (⟨st.nextUid, ItemKind.real gid (placeholderInitialState gadget raw)⟩ : Item)
                  :: rest := by
          show ((stepMutations reg snapshot n pane st).2.foldl applyMutation pane).items = _
          rw [hstep]
          have := foldl_replace_items pane item
            ⟨st.nextUid, ItemKind.real gid (placeholderInitialState gadget raw)⟩
            (snapshot.take n) rest hp'
            (take_uid_ne snapshot hnd n item hin)
          rw [← hlen1] at this
          exact this
        refine ih (Nat.le_of_lt hn) (processIndex reg snapshot n pane st).1
          (processIndex reg snapshot n pane st).2.1
          ((⟨st.nextUid, ItemKind.real gid (placeholderInitialState gadget raw)⟩ : Item)
            :: rest) hitems ?_ x hx
        intro y hy
        rcases List.mem_cons.mp hy with rfl | hy2
        · simp [resolvedItem]
        · exact hres y hy2

/-- After one pass of the per-pane body, every item of the pane is resolved:
real, or a placeholder whose gadget is still absent. -/
theorem replacePane_resolves (reg : Registry) (pane : Pane) (st : CmdState)
    (hnd : (pane.items.map Item.uid).Nodup) :
    ∀ x ∈ (replacePane reg pane st).1.items, resolvedItem reg x = true := by
  unfold replacePane
  exact loop_resolves reg pane.items hnd pane.items.length (le_refl _) pane st []
    (by simp) (by simp)

/-- The per-pane body is mutation-free on a fully resolved pane. -/
theorem replacePane_noop (reg : Registry) (pane : Pane) (st : CmdState)
    (h : ∀ x ∈ pane.items, resolvedItem reg x = true) :
    replacePane reg pane st = (pane, st, []) := by
  unfold replacePane
  exact loop_noop_of_resolved reg pane.items h pane.items.length pane st

/-- C3: `replacePlaceholders()` is idempotent once placeholders are resolved:
a second call under unchanged registry state records no pane mutation at all
(no addItem, destroyItem or setActiveItem) on any pane, because items created
by the first pass are real and every remaining placeholder's gadget is still
absent. Pane items are distinct objects, so their identities are distinct. -/
theorem replacePlaceholders_idempotent (reg : Registry) (panes : List Pane)
    (st st' : CmdState)
    (h : ∀ pane ∈ panes, (pane.items.map Item.uid).Nodup) :
    (replacePlaceholders reg (replacePlaceholders reg panes st).1 st').2.2
      = panes.map (fun _ => ([] : List PaneMutation)) := by
  induction panes generalizing st st' with
  | nil => rfl
  | cons p rest ih =>
    have hp := h p (by simp)
    have hrest : ∀ pane ∈ rest, (pane.items.map Item.uid).Nodup :=
      fun pane hm => h pane (by simp [hm])
    have hres := replacePane_resolves reg p st hp
    have hnoop : replacePane reg (replacePane reg p st).1 st'
        = ((replacePane reg p st).1, st', []) := replacePane_noop _ _ _ hres
    simp only [replacePlaceholders, List.map_cons, hnoop]
    rw [ih (replacePane reg p st).2.1 st' hrest]

theorem replacePlaceholders_idempotent_witness :
    (∀ pane ∈ [pane1], (pane.items.map Item.uid).Nodup) ∧
    (replacePlaceholders reg0 (replacePlaceholders reg0 [pane1] st0).1 st0).2.2
      = [pane1].map (fun _ => ([] : List PaneMutation)) :=
  ⟨by decide, replacePlaceholders_idempotent reg0 [pane1] st0 st0 (by decide)⟩

/-- `jsIndexOf` returns an index of an occurrence, and it is the first one. -/
theorem jsIndexOf_spec (c : Char) (l : List Char) :
    ∀ i, jsIndexOf l c = some i →
      l[i]? = some c ∧ ∀ k, k < i → l[k]? ≠ some c := by
  induction l with
  | nil => intro i h; simp [jsIndexOf] at h
  | cons x xs ih =>
    intro i h
    by_cases hx : x = c
    · simp [jsIndexOf, hx] at h
      subst h
      refine ⟨by simp [hx], ?_⟩
      intro k hk
      exact absurd hk (Nat.not_lt_zero k)
    · simp [jsIndexOf, hx] at h
      obtain ⟨j, hj, hij⟩ := h
      obtain ⟨h1, h2⟩ := ih j hj
      subst hij
      refine ⟨by simpa using h1, ?_⟩
      intro k hk
      cases k with
      | zero => simp [hx]
      | succ m =>
        have : m < j := Nat.lt_of_succ_lt_succ hk
        simpa using h2 m this

/-- `jsIndexOf` finds every member. -/
theorem jsIndexOf_mem (c : Char) (l : List Char) (h : c ∈ l) : jsIndexOf l c ≠ none := by
  induction l with
  | nil => simp at h
  | cons x xs ih =>
    by_cases hx : x = c
    · simp [jsIndexOf, hx]
    · have hxs : c ∈ xs := by
        rcases List.mem_cons.mp h with h1 | h1
        · exact absurd h1.symm hx
        · exact h1
      simp only [jsIndexOf, if_neg hx, ne_eq, Option.map_eq_none']
      exact ih hxs

/-- `jsIndexOf` misses exactly the non-members. -/
theorem jsIndexOf_not_mem (c : Char) (l : List Char) (h : c ∉ l) :
    jsIndexOf l c = none := by
  induction l with
  | nil => rfl
  | cons x xs ih =>
    have hx : ¬x = c := fun hxc => h (by simp [hxc])
    have hxs : c ∉ xs := fun hc => h (List.mem_cons_of_mem x hc)
    simp [jsIndexOf, hx, ih hxs]

/-- `jsLastIndexOf` misses exactly the non-members. -/
theorem jsLastIndexOf_not_mem (c : Char) (l : List Char) (h : c ∉ l) :
    jsLastIndexOf l c = none := by
  induction l with
  | nil => rfl
  | cons x xs ih =>
    have hx : ¬x = c := fun hxc => h (by simp [hxc])
    have hxs : c ∉ xs := fun hc => h (List.mem_cons_of_mem x hc)
    simp [jsLastIndexOf, ih hxs, hx]

/-- If `jsLastIndexOf` misses, the character is absent. -/
theorem jsLastIndexOf_none_not_mem (c : Char) (l : List Char)
    (h : jsLastIndexOf l c = none) : c ∉ l := by
  induction l with
  | nil => simp
  | cons x xs ih =>
    cases hxs : jsLastIndexOf xs c with
    | some j => simp [jsLastIndexOf, hxs] at h
    | none =>
      simp only [jsLastIndexOf, hxs] at h
      have hx : ¬x = c := by
        intro hxc
        simp [hxc] at h
      intro hc
      rcases List.mem_cons.mp hc with h1 | h1
      · exact hx h1.symm
      · exact ih hxs h1

/-- `jsLastIndexOf` finds every member. -/
theorem jsLastIndexOf_mem (c : Char) (l : List Char) (h : c ∈ l) :
    jsLastIndexOf l c ≠ none :=
  fun hn => (jsLastIndexOf_none_not_mem c l hn) h

/-- `jsLastIndexOf` returns an index of an occurrence, and it is the last one. -/
theorem jsLastIndexOf_spec (c : Char) (l : List Char) :
    ∀ j, jsLastIndexOf l c = some j →
      l[j]? = some c ∧ ∀ k, j < k → l[k]? ≠ some c := by
  induction l with
  | nil => intro j h; simp [jsLastIndexOf] at h
  | cons x xs ih =>
    intro j h
    cases hxs : jsLastIndexOf xs c with
    | some j' =>
      simp only [jsLastIndexOf, hxs] at h
      obtain rfl : j' + 1 = j := Option.some.inj h
      obtain ⟨h1, h2⟩ := ih j' hxs
      refine ⟨by simpa using h1, ?_⟩
      intro k hk
      cases k with
      | zero => exact absurd hk (Nat.not_lt_zero _)
      | succ m =>
        have : j' < m := Nat.lt_of_succ_lt_succ hk
        simpa using h2 m this
    | none =>
      simp only [jsLastIndexOf, hxs] at h
      by_cases hx : x = c
      · rw [if_pos hx] at h
        obtain rfl : 0 = j := Option.some.inj h
        refine ⟨by simp [hx], ?_⟩
        intro k hk
        cases k with
        | zero => exact absurd hk (Nat.not_lt_zero _)
        | succ m =>
          have hnm : c ∉ xs := jsLastIndexOf_none_not_mem c xs hxs
          simp only [List.getElem?_cons_succ, ne_eq]
          intro hm
          exact hnm (List.getElem?_mem hm)
      · rw [if_neg hx] at h
        exact absurd h (by simp)

/-- C9: on a type longer than the 50-character threshold containing both a
`<` and a `>`, `tokenizeType` collapses the interior to the ellipsis token,
keeping exactly the text up to and including the first `<` and the text from
the last `>` onward; a type of length at most 50 is a single unmodified plain
token. -/
theorem tokenizeType_collapses (type : List Char) :
    (LONG_TYPE_LENGTH < type.length → '<' ∈ type → '>' ∈ type →
      ∃ i j, type[i]? = some '<' ∧ (∀ k, k < i → type[k]? ≠ some '<') ∧
        type[j]? = some '>' ∧ (∀ k, j < k → type[k]? ≠ some '>') ∧
        tokenizeType type
          = [Token.plain (type.take (i + 1)), Token.str ['.', '.', '.'],
             Token.plain (type.drop j)]) ∧
    (type.length ≤ LONG_TYPE_LENGTH → tokenizeType type = [Token.plain type]) := by
  constructor
  · intro hlen hopen hclose
    cases hi : jsIndexOf type '<' with
    | none => exact absurd hi (jsIndexOf_mem _ _ hopen)
    | some i =>
      cases hj : jsLastIndexOf type '>' with
      | none => exact absurd hj (jsLastIndexOf_mem _ _ hclose)
      | some j =>
        obtain ⟨h1, h2⟩ := jsIndexOf_spec '<' type i hi
        obtain ⟨h3, h4⟩ := jsLastIndexOf_spec '>' type j hj
        exact ⟨i, j, h1, h2, h3, h4, by simp [tokenizeType, hlen, hi, hj]⟩
  · intro hlen
    simp [tokenizeType, Nat.not_lt.mpr hlen]

theorem tokenizeType_collapses_witness :
    LONG_TYPE_LENGTH < t9.length ∧ '<' ∈ t9 ∧ '>' ∈ t9 ∧
    (∃ i j, t9[i]? = some '<' ∧ (∀ k, k < i → t9[k]? ≠ some '<') ∧
      t9[j]? = some '>' ∧ (∀ k, j < k → t9[k]? ≠ some '>') ∧
      tokenizeType t9
        = [Token.plain (t9.take (i + 1)), Token.str ['.', '.', '.'],
           Token.plain (t9.drop j)]) :=
  ⟨by decide, by decide, by decide,
   (tokenizeType_collapses t9).1 (by decide) (by decide) (by decide)⟩

/-- C10: for a type longer than the threshold, the ellipsis collapse requires
both an opening `<` and a closing `>`: when either bracket is missing,
`tokenizeType` performs no eliding and returns the whole type as one plain
token. -/
theorem tokenizeType_needs_both_brackets (type : List Char)
    (hlen : LONG_TYPE_LENGTH < type.length)
    (h : '<' ∉ type ∨ '>' ∉ type) :
    tokenizeType type = [Token.plain type] := by
  rcases h with h | h
  · simp [tokenizeType, hlen, jsIndexOf_not_mem '<' type h]
  · cases hi : jsIndexOf type '<' with
    | none => simp [tokenizeType, hlen, hi]
    | some i => simp [tokenizeType, hlen, hi, jsLastIndexOf_not_mem '>' type h]

theorem tokenizeType_needs_both_brackets_witness :
    LONG_TYPE_LENGTH < t10.length ∧ '<' ∉ t10 ∧
    tokenizeType t10 = [Token.plain t10] :=
  ⟨by decide, by decide,
   tokenizeType_needs_both_brackets t10 (by decide) (Or.inl (by decide))⟩

end Nuclide
